import Mathlib

/-!
# Verification of the Nystroem method implementation

Shallow embedding of `src/mlpack/methods/nystroem_method/nystroem_method_impl.hpp`.

Modelling choices:
* `arma::mat` is embedded as `Mat`: explicit row/column counts together with a
  total entry function; every operation of the embedding masks entries outside
  the stated dimensions to `0`, so that matrices built by the embedding are
  canonical and can be compared with `=`.
* C++ `double` arithmetic is idealised as exact rationals `ℚ`.  The external
  collaborators — the kernel's `Evaluate`, the LAPACK `arma::svd` call and
  `std::sqrt` — are opaque in the source and enter the embedding as function
  parameters (oracles); theorems state the hypotheses they are relied upon for.
* armadillo's element accesses `m(i,j)`, `m.col(j)` and `v(i)` are
  bounds-checked; the embedding makes them total by returning `Option`, and
  the kernel-matrix loops run in the `Option` monad so an out-of-range access
  aborts the computation (the "error branch" of the total embedding).
* The point-selection policies are not part of the sources; `orderedSelect`
  is modelled from the spec (see its doc comment).
-/

namespace Nystroem

/-- Scalars: exact rationals stand in for C++ `double`. -/
abbrev Scalar := ℚ

/-- A dense column vector (`arma::vec` / one column of an `arma::mat`). -/
structure Vec where
  len : ℕ
  entry : ℕ → Scalar
deriving Inhabited

/-- A vector of indices (`arma::Col<size_t>`). -/
structure IdxVec where
  len : ℕ
  entry : ℕ → ℕ
deriving Inhabited

/-- A dense matrix (`arma::mat`): row count, column count and entries. -/
structure Mat where
  n_rows : ℕ
  n_cols : ℕ
  entry : ℕ → ℕ → Scalar
deriving Inhabited

/-- Canonical matrix constructor: entries outside the dimensions are `0`. -/
def Mat.mk' (r c : ℕ) (f : ℕ → ℕ → Scalar) : Mat :=
  ⟨r, c, fun i j => if i < r ∧ j < c then f i j else 0⟩

/-- Bounds-checked element write `m(i, j) = v` (armadillo checks the bounds). -/
def Mat.set (m : Mat) (i j : ℕ) (v : Scalar) : Option Mat :=
  if i < m.n_rows ∧ j < m.n_cols then
    some ⟨m.n_rows, m.n_cols, fun a b => if a = i ∧ b = j then v else m.entry a b⟩
  else none

/-- The `j`-th column of a matrix, as a canonical vector (entries masked). -/
def Mat.colD (m : Mat) (j : ℕ) : Vec :=
  ⟨m.n_rows, fun i => if i < m.n_rows then m.entry i j else 0⟩

/-- Bounds-checked column access `m.col(j)` (armadillo checks the bound). -/
def Mat.colGet (m : Mat) (j : ℕ) : Option Vec :=
  if j < m.n_cols then some (m.colD j) else none

/-- Bounds-checked element access `v(i)` of an `arma::Col<size_t>`. -/
def IdxVec.get (v : IdxVec) (i : ℕ) : Option ℕ :=
  if i < v.len then some (v.entry i) else none

/-- Matrix product `A * B` (row/column counts as armadillo produces them). -/
def Mat.mul (A B : Mat) : Mat :=
  Mat.mk' A.n_rows B.n_cols
    (fun i j => ∑ k ∈ Finset.range A.n_cols, A.entry i k * B.entry k j)

/-- Matrix transpose. -/
def Mat.tr (A : Mat) : Mat :=
  Mat.mk' A.n_cols A.n_rows (fun i j => A.entry j i)

/-- `arma::diagmat(v)`: square diagonal matrix carrying the vector. -/
def Mat.diagmat (v : Vec) : Mat :=
  Mat.mk' v.len v.len (fun i j => if i = j then v.entry i else 0)

/-- Elementwise map on a vector (armadillo elementwise expressions). -/
def Vec.map (f : Scalar → Scalar) (v : Vec) : Vec :=
  ⟨v.len, fun i => if i < v.len then f (v.entry i) else 0⟩

/-- Dimension-and-entry equality of matrices on the in-range region. -/
def Mat.Ext (A B : Mat) : Prop :=
  A.n_rows = B.n_rows ∧ A.n_cols = B.n_cols ∧
    ∀ i < A.n_rows, ∀ j < A.n_cols, A.entry i j = B.entry i j

instance (A B : Mat) : Decidable (A.Ext B) := by
  unfold Mat.Ext; infer_instance

/-- The opaque kernel collaborator: `Evaluate(point, point) -> scalar`. -/
abbrev Kernel := Vec → Vec → Scalar

/-- Error taxonomy of the spec (§7); `outOfBounds` is the error branch of the
total embedding of armadillo's checked accesses. -/
inductive Err where
  | invalidArgument
  | convergenceError
  | numericalDegeneracy
  | outOfBounds
deriving DecidableEq, Inhabited

/-- One iteration of an outer `GetKernelMatrix` loop: the inner
`for (j = 0; j < cols; ++j)` loop writing row `i` of a block.  `fi` is the
fetch of the row's own column (re-evaluated by the C++ inside every inner
iteration, but pure, so fetched once here), `landmark j` the fetch of the
`j`-th landmark column. -/
def rowPass (kernel : Kernel) (fi : Option Vec) (landmark : ℕ → Option Vec)
    (i cols : ℕ) (m : Mat) : Option Mat :=
  (List.range cols).foldlM (fun m2 j => do
    let ci ← fi
    let cj ← landmark j
    m2.set i j (kernel ci cj)) m

/-- A full `GetKernelMatrix` loop nest:
`for (i = 0; i < rows; ++i) for (j = 0; j < cols; ++j) block(i,j) = ...`. -/
def blockPass (kernel : Kernel) (F landmark : ℕ → Option Vec)
    (rows cols : ℕ) (m : Mat) : Option Mat :=
  (List.range rows).foldlM (fun m2 i => rowPass kernel (F i) landmark i cols m2) m

/-- The shared shape of the two `GetKernelMatrix` overloads.  Both run the
same two doubly nested loops and differ only in how the `j`-th landmark
column is fetched; `landmark` abstracts that fetch.  Each iteration performs
the bounds-checked accesses of the corresponding C++ statement and the
bounds-checked write into the output block. -/
def kernelLoops (kernel : Kernel) (data : Mat) (rank : ℕ)
    (landmark : ℕ → Option Vec) (miniKernel semiKernel : Mat) :
    Option (Mat × Mat) := do
  -- Assemble mini-kernel matrix.
  let mini ← blockPass kernel landmark landmark rank rank miniKernel
  -- Construct semi-kernel matrix with interactions between selected data and
  -- all points.
  let semi ← blockPass kernel (fun i => data.colGet i) landmark
    data.n_cols rank semiKernel
  return (mini, semi)

/-- `GetKernelMatrix(const arma::mat* selectedData, miniKernel, semiKernel)`:
the overload taking synthesized landmark points.  (The trailing
`delete selectedData` releases memory and has no observable effect on the
computed blocks, so it has no counterpart in the embedding.) -/
def getKernelMatrixPts (kernel : Kernel) (data : Mat) (rank : ℕ)
    (selectedData : Mat) (miniKernel semiKernel : Mat) : Option (Mat × Mat) :=
  kernelLoops kernel data rank (fun j => selectedData.colGet j)
    miniKernel semiKernel

/-- `GetKernelMatrix(const arma::Col<size_t>& selectedPoints, ...)`: the
overload taking landmark indices; the landmark column is
`data.col(selectedPoints(j))`. -/
def getKernelMatrixIdx (kernel : Kernel) (data : Mat) (rank : ℕ)
    (selectedPoints : IdxVec) (miniKernel semiKernel : Mat) :
    Option (Mat × Mat) :=
  kernelLoops kernel data rank
    (fun j => (selectedPoints.get j).bind data.colGet) miniKernel semiKernel

/-- Modelled from the spec: the Ordered point-selection policy
(`PointSelectionPolicy::Select(data, rank)`) is not among the source files;
per §4.1 it "returns the first `rank` dataset indices, in original order",
and signals `InvalidArgument` when `rank == 0` or when `rank > n` (index-based
selection), which also covers a dataset with zero points. -/
def orderedSelect (data : Mat) (rank : ℕ) : Except Err IdxVec :=
  if rank = 0 then .error .invalidArgument
  else if data.n_cols < rank then .error .invalidArgument
  else .ok ⟨rank, fun i => i⟩

/-- `NystroemMethod::Apply(arma::mat& output)`.

The method is generic over the point-selection policy and calls the external
`arma::svd` and `std::sqrt`; those enter as the parameters `select`, `svd`
(returning `(U, s, V)`) and `sqrtF`.  `arma::mat miniKernel(rank, rank)`
allocates without initialising; the embedding fixes the indeterminate initial
entries to `0` (the loops overwrite every in-range entry before use).
The unconditional debug printing of the source writes to `std::cout` and does
not affect the result, so it has no counterpart.  On success the result is
the matrix assigned to `output`; on failure `output` is never written and the
error is propagated to the caller.

The helper `liftBlocks` lifts the totalised `GetKernelMatrix` result into
the call's error pipeline. -/
def liftBlocks (o : Option (Mat × Mat)) : Except Err (Mat × Mat) :=
  match o with
  | some p => Except.ok p
  | none => Except.error Err.outOfBounds

/-- The body of `NystroemMethod::Apply`; see the comment on `liftBlocks`. -/
def apply (kernel : Kernel) (select : Mat → ℕ → Except Err IdxVec)
    (svd : Mat → Mat × Vec × Mat) (sqrtF : Scalar → Scalar)
    (data : Mat) (rank : ℕ) : Except Err Mat := do
  let miniKernel : Mat := Mat.mk' rank rank (fun _ _ => 0)
  let semiKernel : Mat := Mat.mk' data.n_cols rank (fun _ _ => 0)
  let sel ← select data rank
  let blocks ← liftBlocks (getKernelMatrixIdx kernel data rank sel
    miniKernel semiKernel)
  -- Singular value decomposition mini-kernel matrix.
  let U := (svd blocks.1).1
  let s := (svd blocks.1).2.1
  let V := (svd blocks.1).2.2
  -- Construct the output matrix.
  let normalization := Mat.diagmat (Vec.map (fun x => 1 / sqrtF x) s)
  return ((blocks.2.mul U).mul normalization).mul V

/-- The column a successful landmark fetch returns. -/
def landmarkD (landmark : ℕ → Option Vec) (j : ℕ) : Vec :=
  (landmark j).getD default

/-- The full `rank × rank` mini-kernel of landmark columns `cols`. -/
def fullMini (kernel : Kernel) (rank : ℕ) (cols : ℕ → Vec) : Mat :=
  Mat.mk' rank rank (fun i j => kernel (cols i) (cols j))

/-- The full `n × rank` semi-kernel between the data and landmark columns. -/
def fullSemi (kernel : Kernel) (data : Mat) (rank : ℕ) (cols : ℕ → Vec) : Mat :=
  Mat.mk' data.n_cols rank (fun i j => kernel (data.colD i) (cols j))

/-- The mini-kernel built when the landmarks are the first `rank` columns of
the dataset (the Ordered policy). -/
def orderedMini (kernel : Kernel) (data : Mat) (rank : ℕ) : Mat :=
  fullMini kernel rank data.colD

/-- The semi-kernel built when the landmarks are the first `rank` columns of
the dataset (the Ordered policy). -/
def orderedSemi (kernel : Kernel) (data : Mat) (rank : ℕ) : Mat :=
  fullSemi kernel data rank data.colD

/-- The reconstruction step exactly as the source assembles it:
`semiKernel * U * diagmat(1.0 / sqrt(s)) * V` — note the factor `V`, not its
transpose. -/
def reconstructV (semi U : Mat) (s : Vec) (V : Mat) (sqrtF : Scalar → Scalar) :
    Mat :=
  ((semi.mul U).mul (Mat.diagmat (Vec.map (fun x => 1 / sqrtF x) s))).mul V

/-- The `n × n` identity matrix. -/
def idMat (n : ℕ) : Mat :=
  Mat.mk' n n (fun i j => if i = j then 1 else 0)

/-- The entry `(i, j)` of a successful result, `none` on failure. -/
def okEntry (e : Except Err Mat) (i j : ℕ) : Option Scalar :=
  match e with
  | .ok m => some (m.entry i j)
  | .error _ => none

/-- Whether an `Apply` call succeeded. -/
def exceptIsOk (e : Except Err Mat) : Bool :=
  match e with
  | .ok _ => true
  | .error _ => false

/-- The configuration the `NystroemMethod` constructor stores: the member
initialisers `data(data), kernel(kernel), rank(rank)` and nothing else. -/
structure NystroemMethod where
  data : Mat
  kernel : Kernel
  rank : ℕ

/-- `Apply` with the implicit receiver threaded explicitly: the method reads
the members `data`, `kernel` and `rank` and performs no member write, so the
configuration the call finishes with is the one it started from, and the only
value produced is the output matrix (or the error). -/
def applyState (cfg : NystroemMethod) (select : Mat → ℕ → Except Err IdxVec)
    (svd : Mat → Mat × Vec × Mat) (sqrtF : Scalar → Scalar) :
    Except Err Mat × NystroemMethod :=
  (apply cfg.kernel select svd sqrtF cfg.data cfg.rank, cfg)

/-- The normalization matrix in the spec's words (§4.3 step 2):
`N = diag(1/sqrt(s_i))`. -/
def specNormalization (s : Vec) (sqrtF : Scalar → Scalar) : Mat :=
  Mat.diagmat ⟨s.len, fun i => 1 / sqrtF (s.entry i)⟩

/-- The output factor in the claim's words (§4.3 step 3):
`OutputFactor = SemiKernel · U · N · Vᵗ` — with the transpose of `V`. -/
def specOutputFactorVT (semi U : Mat) (s : Vec) (V : Mat)
    (sqrtF : Scalar → Scalar) : Mat :=
  ((semi.mul U).mul (specNormalization s sqrtF)).mul V.tr

/-- Modelled from the spec (§4.3, §7): the default "rank-deficient
reconstruction" policy — drop every component whose singular value is at or
below the threshold `tau` — applied to the code's own assembly order (final
factor `V`).  Used to compare the code's output against a dropped-component
output. -/
def specDropNormalization (s : Vec) (sqrtF : Scalar → Scalar) (tau : Scalar) :
    Mat :=
  Mat.diagmat ⟨s.len, fun i =>
    if s.entry i ≤ tau then 0 else 1 / sqrtF (s.entry i)⟩

/-- The code's assembly with the degenerate components dropped. -/
def dropReconstructV (semi U : Mat) (s : Vec) (V : Mat)
    (sqrtF : Scalar → Scalar) (tau : Scalar) : Mat :=
  ((semi.mul U).mul (specDropNormalization s sqrtF tau)).mul V

/-! ### Concrete instances used by witnesses and counterexamples -/

/-- The linear (dot-product) kernel. -/
def kDot : Kernel := fun v w =>
  ∑ i ∈ Finset.range (min v.len w.len), v.entry i * w.entry i

/-- A one-dimensional single-point dataset holding the point `2`. -/
def dataOne : Mat := Mat.mk' 1 1 (fun _ _ => 2)

/-- A one-dimensional two-point dataset holding the points `3` and `4`. -/
def dataTwo : Mat := Mat.mk' 1 2 (fun _ j => if j = 0 then 3 else 4)

/-- A one-dimensional two-point dataset holding the points `1` and `2`. -/
def dataC1 : Mat := Mat.mk' 1 2 (fun _ j => if j = 0 then 1 else 2)

/-- An SVD oracle adequate for `dataOne` with `kDot`: the mini-kernel there
is the 1×1 matrix `[4]`, whose exact SVD is `I · diag(4) · Iᵗ`. -/
def svdOne : Mat → Mat × Vec × Mat :=
  fun _ => (idMat 1, ⟨1, fun _ => 4⟩, idMat 1)

/-- A square-root oracle computing the exact square roots of every value the
fixtures feed it. -/
def sqrtFix : Scalar → Scalar := fun x =>
  if x = 4 then 2
  else if x = 25 then 5
  else if x = 1 then 1
  else if x = 1 / 10 ^ 40 then 1 / 10 ^ 20
  else 0

/-- The Pythagorean rotation `[[3/5, -4/5], [4/5, 3/5]]`: a rational
orthogonal matrix that is not symmetric, so `rotMat.tr ≠ rotMat`. -/
def rotMat : Mat := Mat.mk' 2 2 (fun i j =>
  if i = 0 ∧ j = 0 then 3 / 5
  else if i = 0 ∧ j = 1 then -(4 / 5)
  else if i = 1 ∧ j = 0 then 4 / 5
  else 3 / 5)

/-- A symmetric positive-definite kernel given by a lookup table on the two
points of `dataC1`; its 2×2 kernel matrix is `rotMat · diag(25, 1) · rotMatᵗ`
(all entries exact rationals). -/
def kC1 : Kernel := fun v w =>
  if v.entry 0 = 1 ∧ w.entry 0 = 1 then 241 / 25
  else if v.entry 0 = 2 ∧ w.entry 0 = 2 then 409 / 25
  else if (v.entry 0 = 1 ∧ w.entry 0 = 2) ∨ (v.entry 0 = 2 ∧ w.entry 0 = 1)
    then 288 / 25
  else 0

/-- The exact SVD `U = rotMat, s = (25, 1), V = rotMat` of the `kC1`
mini-kernel over `dataC1`. -/
def svdC1 : Mat → Mat × Vec × Mat :=
  fun _ => (rotMat, ⟨2, fun i => if i = 0 then 25 else 1⟩, rotMat)

/-- A symmetric positive-definite kernel on the two points of `dataTwo`
whose 2×2 kernel matrix is `rotMat · diag(25, 10⁻⁴⁰) · rotMatᵗ`: its second
singular value sits far below machine precision relative to the first. -/
def kC3 : Kernel := fun v w =>
  if v.entry 0 = 3 ∧ w.entry 0 = 3 then 9 + 16 / 25 * (1 / 10 ^ 40)
  else if v.entry 0 = 4 ∧ w.entry 0 = 4 then 16 + 9 / 25 * (1 / 10 ^ 40)
  else 12 - 12 / 25 * (1 / 10 ^ 40)

/-- The exact SVD `U = rotMat, s = (25, 10⁻⁴⁰), V = rotMat` of the `kC3`
mini-kernel over `dataTwo`. -/
def svdC3 : Mat → Mat × Vec × Mat :=
  fun _ => (rotMat, ⟨2, fun i => if i = 0 then 25 else 1 / 10 ^ 40⟩, rotMat)

/-- The double-precision machine epsilon `2⁻⁵²`, the scale of the spec's
"small positive threshold near machine precision". -/
def machineEps : Scalar := 1 / 2 ^ 52

/-- A bounds-checked write inside the stated dimensions succeeds and updates
exactly the written cell. -/
theorem Mat.set_pos (r c : ℕ) (g : ℕ → ℕ → Scalar) (i j : ℕ)
    (hi : i < r) (hj : j < c) (v : Scalar) :
    Mat.set ⟨r, c, g⟩ i j v
      = some ⟨r, c, fun a b => if a = i ∧ b = j then v else g a b⟩ := by
  simp [Mat.set, hi, hj]

/-- An in-range column access succeeds and returns the canonical column. -/
theorem Mat.colGet_lt (m : Mat) (j : ℕ) (hj : j < m.n_cols) :
    m.colGet j = some (m.colD j) := by
  simp [Mat.colGet, hj]

/-- A successful bounds-checked write preserves the dimensions. -/
theorem Mat.set_dims (m : Mat) (i j : ℕ) (v : Scalar) (m' : Mat)
    (h : m.set i j v = some m') :
    m'.n_rows = m.n_rows ∧ m'.n_cols = m.n_cols := by
  unfold Mat.set at h
  split at h
  · cases h
    exact ⟨rfl, rfl⟩
  · cases h

/-- A monadic fold whose body preserves dimensions preserves dimensions. -/
theorem foldlM_dims (body : Mat → ℕ → Option Mat)
    (hbody : ∀ m j m', body m j = some m' →
      m'.n_rows = m.n_rows ∧ m'.n_cols = m.n_cols) :
    ∀ (l : List ℕ) (m m' : Mat), List.foldlM body m l = some m' →
      m'.n_rows = m.n_rows ∧ m'.n_cols = m.n_cols := by
  intro l
  induction l with
  | nil =>
    intro m m' h
    simp only [List.foldlM_nil] at h
    cases h
    exact ⟨rfl, rfl⟩
  | cons a t ih =>
    intro m m' h
    rw [List.foldlM_cons] at h
    cases hx : body m a with
    | none => rw [hx] at h; cases h
    | some m₁ =>
      rw [hx] at h
      simp only [Option.bind_eq_bind, Option.some_bind] at h
      obtain ⟨h1, h2⟩ := ih m₁ m' h
      obtain ⟨h3, h4⟩ := hbody m a m₁ hx
      exact ⟨h1.trans h3, h2.trans h4⟩

/-- A successful inner `GetKernelMatrix` loop preserves the dimensions. -/
theorem rowPass_dims (kernel : Kernel) (fi : Option Vec)
    (landmark : ℕ → Option Vec) (i cols : ℕ) (m m' : Mat)
    (h : rowPass kernel fi landmark i cols m = some m') :
    m'.n_rows = m.n_rows ∧ m'.n_cols = m.n_cols := by
  refine foldlM_dims _ ?_ (List.range cols) m m' h
  intro m2 j m2' hb
  cases hfi : fi with
  | none => rw [hfi] at hb; cases hb
  | some ci =>
    rw [hfi] at hb
    cases hlj : landmark j with
    | none => rw [hlj] at hb; cases hb
    | some cj =>
      rw [hlj] at hb
      simp only [Option.bind_eq_bind, Option.some_bind] at hb
      exact Mat.set_dims m2 i j _ m2' hb

/-- A successful `GetKernelMatrix` loop nest preserves the dimensions. -/
theorem blockPass_dims (kernel : Kernel) (F landmark : ℕ → Option Vec)
    (rows cols : ℕ) (m m' : Mat)
    (h : blockPass kernel F landmark rows cols m = some m') :
    m'.n_rows = m.n_rows ∧ m'.n_cols = m.n_cols := by
  refine foldlM_dims _ ?_ (List.range rows) m m' h
  intro m2 i m2' hb
  exact rowPass_dims kernel (F i) landmark i cols m2 m2' hb

/-- A successful `GetKernelMatrix` call (indices overload) returns blocks of
the dimensions of the blocks it was handed. -/
theorem getKernelMatrixIdx_dims (kernel : Kernel) (data : Mat) (rank : ℕ)
    (sp : IdxVec) (miniK semiK mini semi : Mat)
    (h : getKernelMatrixIdx kernel data rank sp miniK semiK
      = some (mini, semi)) :
    mini.n_rows = miniK.n_rows ∧ mini.n_cols = miniK.n_cols ∧
      semi.n_rows = semiK.n_rows ∧ semi.n_cols = semiK.n_cols := by
  unfold getKernelMatrixIdx kernelLoops at h
  cases h1 : blockPass kernel
      (fun j => (sp.get j).bind data.colGet)
      (fun j => (sp.get j).bind data.colGet) rank rank miniK with
  | none => rw [h1] at h; cases h
  | some m₁ =>
    rw [h1] at h
    simp only [Option.bind_eq_bind, Option.some_bind] at h
    cases h2 : blockPass kernel (fun i => data.colGet i)
        (fun j => (sp.get j).bind data.colGet) data.n_cols rank semiK with
    | none => rw [h2] at h; cases h
    | some m₂ =>
      rw [h2] at h
      simp only [Option.bind_eq_bind, Option.some_bind] at h
      cases h
      obtain ⟨a1, a2⟩ := blockPass_dims _ _ _ _ _ _ _ h1
      obtain ⟨b1, b2⟩ := blockPass_dims _ _ _ _ _ _ _ h2
      exact ⟨a1, a2, b1, b2⟩

/-- `Apply` fails with `InvalidArgument` under the Ordered policy whenever
`rank` is zero or exceeds the number of points, and produces no output. -/
theorem apply_invalid_rank (kernel : Kernel) (svd : Mat → Mat × Vec × Mat)
    (sqrtF : Scalar → Scalar) (data : Mat) (rank : ℕ)
    (h : rank = 0 ∨ data.n_cols < rank) :
    apply kernel orderedSelect svd sqrtF data rank
      = Except.error Err.invalidArgument := by
  have hsel : orderedSelect data rank = Except.error Err.invalidArgument := by
    unfold orderedSelect
    rcases h with h | h
    · rw [if_pos h]
    · rw [if_neg (by omega), if_pos h]
  unfold apply
  rw [hsel]
  rfl

/-- Characterisation of one inner loop: writing row `i` of a block succeeds
when every access is in range, and sets exactly the first `t` cells of row
`i` to the kernel evaluations. -/
theorem rowPass_eq (kernel : Kernel) (fi : Option Vec) (vi : Vec)
    (landmark : ℕ → Option Vec) (r c i : ℕ) (hi : i < r)
    (hfi : fi = some vi)
    (hl : ∀ j < c, landmark j = some (landmarkD landmark j))
    (g : ℕ → ℕ → Scalar) :
    ∀ t, t ≤ c →
      rowPass kernel fi landmark i t ⟨r, c, g⟩
        = some ⟨r, c, fun a b =>
            if a = i ∧ b < t then kernel vi (landmarkD landmark b)
            else g a b⟩ := by
  intro t
  induction t with
  | zero =>
    intro _
    unfold rowPass
    have hfun : (fun a b =>
        if a = i ∧ b < 0 then kernel vi (landmarkD landmark b) else g a b)
        = g := by
      funext a b
      simp
    simp only [List.range_zero, List.foldlM_nil, hfun]
    rfl
  | succ t ih =>
    intro ht
    have ht' : t ≤ c := Nat.le_of_succ_le ht
    have htc : t < c := ht
    unfold rowPass at ih ⊢
    rw [List.range_succ, List.foldlM_append]
    rw [ih ht']
    simp only [Option.bind_eq_bind, Option.some_bind, List.foldlM_cons,
      List.foldlM_nil, hfi, hl t htc]
    rw [Mat.set_pos r c _ i t hi htc]
    have hfun : (fun a b =>
        if a = i ∧ b = t then kernel vi (landmarkD landmark t)
        else if a = i ∧ b < t then kernel vi (landmarkD landmark b)
        else g a b)
        = (fun a b =>
          if a = i ∧ b < t + 1 then kernel vi (landmarkD landmark b)
          else g a b) := by
      funext a b
      by_cases hb : b = t
      · subst hb
        by_cases ha : a = i <;> simp [ha]
      · have hbiff : b < t + 1 ↔ b < t := by omega
        simp [hb, hbiff]
    simp only [Option.some_bind, hfun]
    rfl

/-- Characterisation of one full loop nest: when every access is in range the
nest succeeds and fills the whole `rows × cols` block with the kernel
evaluations, leaving every other entry of the accumulator unchanged. -/
theorem blockPass_eq (kernel : Kernel) (F landmark : ℕ → Option Vec)
    (r c : ℕ)
    (hF : ∀ i < r, F i = some (landmarkD F i))
    (hl : ∀ j < c, landmark j = some (landmarkD landmark j))
    (g : ℕ → ℕ → Scalar) :
    ∀ t, t ≤ r →
      blockPass kernel F landmark t c ⟨r, c, g⟩
        = some ⟨r, c, fun a b =>
            if a < t ∧ b < c then
              kernel (landmarkD F a) (landmarkD landmark b)
            else g a b⟩ := by
  intro t
  induction t with
  | zero =>
    intro _
    unfold blockPass
    have hfun : (fun a b =>
        if a < 0 ∧ b < c then kernel (landmarkD F a) (landmarkD landmark b)
        else g a b)
        = g := by
      funext a b
      simp
    simp only [List.range_zero, List.foldlM_nil, hfun]
    rfl
  | succ t ih =>
    intro ht
    have ht' : t ≤ r := Nat.le_of_succ_le ht
    have htr : t < r := ht
    unfold blockPass at ih ⊢
    rw [List.range_succ, List.foldlM_append]
    rw [ih ht']
    simp only [Option.bind_eq_bind, Option.some_bind, List.foldlM_cons,
      List.foldlM_nil]
    rw [rowPass_eq kernel (F t) (landmarkD F t) landmark r c t htr
      (hF t htr) hl _ c (le_refl c)]
    have hfun : (fun a b =>
        if a = t ∧ b < c then kernel (landmarkD F t) (landmarkD landmark b)
        else if a < t ∧ b < c then
          kernel (landmarkD F a) (landmarkD landmark b)
        else g a b)
        = (fun a b =>
          if a < t + 1 ∧ b < c then
            kernel (landmarkD F a) (landmarkD landmark b)
          else g a b) := by
      funext a b
      by_cases ha : a = t
      · subst ha
        by_cases hb : b < c <;> simp [hb, Nat.lt_succ_self]
      · have haiff : a < t + 1 ↔ a < t := by omega
        simp [ha, haiff]
    simp only [Option.some_bind, hfun]
    rfl

/-- Characterisation of the shared `GetKernelMatrix` loops on blocks of the
shapes `Apply` allocates: full success, and both blocks fully populated with
the kernel evaluations. -/
theorem kernelLoops_eq (kernel : Kernel) (data : Mat) (rank : ℕ)
    (landmark : ℕ → Option Vec) (g₁ g₂ : ℕ → ℕ → Scalar)
    (hl : ∀ j < rank, landmark j = some (landmarkD landmark j)) :
    kernelLoops kernel data rank landmark
      ⟨rank, rank, g₁⟩ ⟨data.n_cols, rank, g₂⟩
      = some
        (⟨rank, rank, fun i j =>
            if i < rank ∧ j < rank then
              kernel (landmarkD landmark i) (landmarkD landmark j)
            else g₁ i j⟩,
          ⟨data.n_cols, rank, fun i j =>
            if i < data.n_cols ∧ j < rank then
              kernel (data.colD i) (landmarkD landmark j)
            else g₂ i j⟩) := by
  unfold kernelLoops
  rw [blockPass_eq kernel landmark landmark rank rank hl hl g₁ rank
    (le_refl rank)]
  have hcol : ∀ i < data.n_cols,
      (fun i => data.colGet i) i
        = some (landmarkD (fun i => data.colGet i) i) := by
    intro i hi
    simp [landmarkD, Mat.colGet_lt data i hi]
  rw [blockPass_eq kernel (fun i => data.colGet i) landmark data.n_cols rank
    hcol hl g₂ data.n_cols (le_refl data.n_cols)]
  have hfun : (fun a b =>
      if a < data.n_cols ∧ b < rank then
        kernel (landmarkD (fun i => data.colGet i) a) (landmarkD landmark b)
      else g₂ a b)
      = (fun i j =>
        if i < data.n_cols ∧ j < rank then
          kernel (data.colD i) (landmarkD landmark j)
        else g₂ i j) := by
    funext a b
    by_cases h : a < data.n_cols ∧ b < rank
    · simp [h, landmarkD, Mat.colGet_lt data a h.1]
    · simp [h]
  simp only [Option.bind_eq_bind, Option.some_bind, hfun]
  rfl

/-- Binding a successful `Except` computation applies the continuation. -/
theorem exceptOkBind {ε α β : Type} (a : α) (f : α → Except ε β) :
    (Except.ok a >>= f : Except ε β) = f a := rfl

/-- In-range entries of a product are the usual sums over the inner index. -/
theorem Mat.mul_entry (A B : Mat) (i j : ℕ) (hi : i < A.n_rows)
    (hj : j < B.n_cols) :
    (A.mul B).entry i j
      = ∑ k ∈ Finset.range A.n_cols, A.entry i k * B.entry k j := by
  simp [Mat.mul, Mat.mk', hi, hj]

theorem Mat.mul_n_rows (A B : Mat) : (A.mul B).n_rows = A.n_rows := rfl

theorem Mat.mul_n_cols (A B : Mat) : (A.mul B).n_cols = B.n_cols := rfl

/-- `Apply` with the Ordered selection policy, evaluated: for a valid rank it
succeeds and returns exactly `semiKernel * U * diagmat(1.0 / sqrt(s)) * V`,
where the blocks are the fully populated ordered kernel blocks and
`(U, s, V)` is whatever the SVD collaborator returns on the mini-kernel. -/
theorem apply_ordered_eq (kernel : Kernel) (svd : Mat → Mat × Vec × Mat)
    (sqrtF : Scalar → Scalar) (data : Mat) (rank : ℕ)
    (h1 : rank ≠ 0) (h2 : rank ≤ data.n_cols) :
    apply kernel orderedSelect svd sqrtF data rank
      = Except.ok (reconstructV (orderedSemi kernel data rank)
          (svd (orderedMini kernel data rank)).1
          (svd (orderedMini kernel data rank)).2.1
          (svd (orderedMini kernel data rank)).2.2 sqrtF) := by
  have hsel : orderedSelect data rank = Except.ok ⟨rank, fun i => i⟩ := by
    unfold orderedSelect
    rw [if_neg h1, if_neg (by omega)]
  have hlj : ∀ j < rank,
      (((⟨rank, fun i => i⟩ : IdxVec).get j).bind data.colGet)
        = some (data.colD j) := by
    intro j hj
    simp [IdxVec.get, hj, Mat.colGet_lt data j (lt_of_lt_of_le hj h2)]
  have hl : ∀ j < rank,
      (((⟨rank, fun i => i⟩ : IdxVec).get j).bind data.colGet)
        = some (landmarkD
            (fun j => ((⟨rank, fun i => i⟩ : IdxVec).get j).bind data.colGet)
            j) := by
    intro j hj
    rw [hlj j hj]
    simp [landmarkD, hlj j hj]
  have hblocks : getKernelMatrixIdx kernel data rank ⟨rank, fun i => i⟩
      (Mat.mk' rank rank (fun _ _ => 0))
      (Mat.mk' data.n_cols rank (fun _ _ => 0))
      = some (orderedMini kernel data rank, orderedSemi kernel data rank) := by
    unfold getKernelMatrixIdx
    unfold Mat.mk'
    rw [kernelLoops_eq kernel data rank _ _ _ hl]
    have hmini : (fun i j =>
        if i < rank ∧ j < rank then
          kernel (landmarkD
              (fun j => ((⟨rank, fun i => i⟩ : IdxVec).get j).bind data.colGet)
              i)
            (landmarkD
              (fun j => ((⟨rank, fun i => i⟩ : IdxVec).get j).bind data.colGet)
              j)
        else if i < rank ∧ j < rank then (0 : Scalar) else 0)
        = fun i j =>
          if i < rank ∧ j < rank then kernel (data.colD i) (data.colD j)
          else 0 := by
      funext i j
      by_cases h : i < rank ∧ j < rank
      · simp only [h, if_pos]
        rw [show (landmarkD
            (fun j => ((⟨rank, fun i => i⟩ : IdxVec).get j).bind data.colGet)
            i) = data.colD i from by simp [landmarkD, hlj i h.1],
          show (landmarkD
            (fun j => ((⟨rank, fun i => i⟩ : IdxVec).get j).bind data.colGet)
            j) = data.colD j from by simp [landmarkD, hlj j h.2]]
        simp
      · simp [h]
    have hsemi : (fun i j =>
        if i < data.n_cols ∧ j < rank then
          kernel (data.colD i)
            (landmarkD
              (fun j => ((⟨rank, fun i => i⟩ : IdxVec).get j).bind data.colGet)
              j)
        else if i < data.n_cols ∧ j < rank then (0 : Scalar) else 0)
        = fun i j =>
          if i < data.n_cols ∧ j < rank then
            kernel (data.colD i) (data.colD j)
          else 0 := by
      funext i j
      by_cases h : i < data.n_cols ∧ j < rank
      · simp only [h, if_pos]
        rw [show (landmarkD
            (fun j => ((⟨rank, fun i => i⟩ : IdxVec).get j).bind data.colGet)
            j) = data.colD j from by simp [landmarkD, hlj j h.2]]
        simp
      · simp [h]
    simp only [hmini, hsemi]
    rfl
  unfold apply
  rw [hsel]
  simp only [exceptOkBind, hblocks]
  rfl

/-- The points overload of `GetKernelMatrix`, characterised: with at least
`rank` landmark columns available it succeeds, fills the mini-kernel with the
landmark-pair evaluations and the semi-kernel with the data-landmark
evaluations, and leaves all other entries of the handed blocks unchanged. -/
theorem getKernelMatrixPts_eq (kernel : Kernel) (data : Mat) (rank : ℕ)
    (selectedData : Mat) (g₁ g₂ : ℕ → ℕ → Scalar)
    (hsel : rank ≤ selectedData.n_cols) :
    getKernelMatrixPts kernel data rank selectedData
      ⟨rank, rank, g₁⟩ ⟨data.n_cols, rank, g₂⟩
      = some
        (⟨rank, rank, fun i j =>
            if i < rank ∧ j < rank then
              kernel (selectedData.colD i) (selectedData.colD j)
            else g₁ i j⟩,
          ⟨data.n_cols, rank, fun i j =>
            if i < data.n_cols ∧ j < rank then
              kernel (data.colD i) (selectedData.colD j)
            else g₂ i j⟩) := by
  have hlj : ∀ j < rank,
      (fun j => selectedData.colGet j) j = some (selectedData.colD j) := by
    intro j hj
    exact Mat.colGet_lt selectedData j (lt_of_lt_of_le hj hsel)
  have hlD : ∀ j < rank,
      landmarkD (fun j => selectedData.colGet j) j = selectedData.colD j := by
    intro j hj
    simp [landmarkD, hlj j hj]
  have hl : ∀ j < rank,
      (fun j => selectedData.colGet j) j
        = some (landmarkD (fun j => selectedData.colGet j) j) := by
    intro j hj
    rw [hlj j hj, hlD j hj]
  unfold getKernelMatrixPts
  rw [kernelLoops_eq kernel data rank _ _ _ hl]
  have hmini : (fun i j =>
      if i < rank ∧ j < rank then
        kernel (landmarkD (fun j => selectedData.colGet j) i)
          (landmarkD (fun j => selectedData.colGet j) j)
      else g₁ i j)
      = fun i j =>
        if i < rank ∧ j < rank then
          kernel (selectedData.colD i) (selectedData.colD j)
        else g₁ i j := by
    funext i j
    by_cases h : i < rank ∧ j < rank
    · simp only [h, if_pos, hlD i h.1, hlD j h.2]
    · simp [h]
  have hsemi : (fun i j =>
      if i < data.n_cols ∧ j < rank then
        kernel (data.colD i) (landmarkD (fun j => selectedData.colGet j) j)
      else g₂ i j)
      = fun i j =>
        if i < data.n_cols ∧ j < rank then
          kernel (data.colD i) (selectedData.colD j)
        else g₂ i j := by
    funext i j
    by_cases h : i < data.n_cols ∧ j < rank
    · simp only [h, if_pos, hlD j h.2]
    · simp [h]
  rw [hmini, hsemi]

/-- The indices overload of `GetKernelMatrix`, characterised: when the index
vector holds at least `rank` indices, all pointing at dataset columns, it
succeeds, fills the mini-kernel with the landmark-pair evaluations and the
semi-kernel with the data-landmark evaluations, and leaves all other entries
of the handed blocks unchanged. -/
theorem getKernelMatrixIdx_eq (kernel : Kernel) (data : Mat) (rank : ℕ)
    (sp : IdxVec) (g₁ g₂ : ℕ → ℕ → Scalar)
    (hlen : rank ≤ sp.len)
    (hidx : ∀ j < rank, sp.entry j < data.n_cols) :
    getKernelMatrixIdx kernel data rank sp
      ⟨rank, rank, g₁⟩ ⟨data.n_cols, rank, g₂⟩
      = some
        (⟨rank, rank, fun i j =>
            if i < rank ∧ j < rank then
              kernel (data.colD (sp.entry i)) (data.colD (sp.entry j))
            else g₁ i j⟩,
          ⟨data.n_cols, rank, fun i j =>
            if i < data.n_cols ∧ j < rank then
              kernel (data.colD i) (data.colD (sp.entry j))
            else g₂ i j⟩) := by
  have hlj : ∀ j < rank,
      (fun j => (sp.get j).bind data.colGet) j
        = some (data.colD (sp.entry j)) := by
    intro j hj
    simp [IdxVec.get, lt_of_lt_of_le hj hlen,
      Mat.colGet_lt data (sp.entry j) (hidx j hj)]
  have hlD : ∀ j < rank,
      landmarkD (fun j => (sp.get j).bind data.colGet) j
        = data.colD (sp.entry j) := by
    intro j hj
    simp [landmarkD, hlj j hj]
  have hl : ∀ j < rank,
      (fun j => (sp.get j).bind data.colGet) j
        = some (landmarkD (fun j => (sp.get j).bind data.colGet) j) := by
    intro j hj
    rw [hlj j hj, hlD j hj]
  unfold getKernelMatrixIdx
  rw [kernelLoops_eq kernel data rank _ _ _ hl]
  have hmini : (fun i j =>
      if i < rank ∧ j < rank then
        kernel (landmarkD (fun j => (sp.get j).bind data.colGet) i)
          (landmarkD (fun j => (sp.get j).bind data.colGet) j)
      else g₁ i j)
      = fun i j =>
        if i < rank ∧ j < rank then
          kernel (data.colD (sp.entry i)) (data.colD (sp.entry j))
        else g₁ i j := by
    funext i j
    by_cases h : i < rank ∧ j < rank
    · simp only [h, if_pos, hlD i h.1, hlD j h.2]
    · simp [h]
  have hsemi : (fun i j =>
      if i < data.n_cols ∧ j < rank then
        kernel (data.colD i)
          (landmarkD (fun j => (sp.get j).bind data.colGet) j)
      else g₂ i j)
      = fun i j =>
        if i < data.n_cols ∧ j < rank then
          kernel (data.colD i) (data.colD (sp.entry j))
        else g₂ i j := by
    funext i j
    by_cases h : i < data.n_cols ∧ j < rank
    · simp only [h, if_pos, hlD j h.2]
    · simp [h]
  rw [hmini, hsemi]

/-! ### Claims -/

/-- C2: for every dataset of n points, calling `Apply` with `rank = 0` or
with `rank > n` raises `InvalidArgument` and produces no output factor (the
call returns the error instead of a matrix, so the output argument is never
written). -/
theorem apply_invalid_rank_error (kernel : Kernel)
    (svd : Mat → Mat × Vec × Mat) (sqrtF : Scalar → Scalar)
    (data : Mat) (rank : ℕ) (h : rank = 0 ∨ data.n_cols < rank) :
    apply kernel orderedSelect svd sqrtF data rank
      = Except.error Err.invalidArgument :=
  apply_invalid_rank kernel svd sqrtF data rank h

/-- Witness for C2 at `rank = 0` and at `rank = 3 > n = 2`. -/
theorem apply_invalid_rank_error_example :
    apply kDot orderedSelect svdOne sqrtFix dataTwo 0
        = Except.error Err.invalidArgument
    ∧ apply kDot orderedSelect svdOne sqrtFix dataTwo 3
        = Except.error Err.invalidArgument :=
  ⟨apply_invalid_rank_error kDot svdOne sqrtFix dataTwo 0 (Or.inl rfl),
    apply_invalid_rank_error kDot svdOne sqrtFix dataTwo 3
      (Or.inr (by decide))⟩

/-- C7: two `Apply` calls with identical dataset, kernel, rank and the
deterministic Ordered selection policy produce identical output matrices. -/
theorem apply_ordered_deterministic (kernel : Kernel)
    (svd : Mat → Mat × Vec × Mat) (sqrtF : Scalar → Scalar)
    (data : Mat) (rank : ℕ) (o₁ o₂ : Mat)
    (h₁ : apply kernel orderedSelect svd sqrtF data rank = Except.ok o₁)
    (h₂ : apply kernel orderedSelect svd sqrtF data rank = Except.ok o₂) :
    o₁ = o₂ := by
  rw [h₁] at h₂
  exact Except.ok.inj h₂

/-- Witness for C7: two concrete `Apply` runs on the one-point dataset give
the same output. -/
theorem apply_ordered_deterministic_example :
    reconstructV (orderedSemi kDot dataOne 1)
        (svdOne (orderedMini kDot dataOne 1)).1
        (svdOne (orderedMini kDot dataOne 1)).2.1
        (svdOne (orderedMini kDot dataOne 1)).2.2 sqrtFix
      = reconstructV (orderedSemi kDot dataOne 1)
        (svdOne (orderedMini kDot dataOne 1)).1
        (svdOne (orderedMini kDot dataOne 1)).2.1
        (svdOne (orderedMini kDot dataOne 1)).2.2 sqrtFix :=
  apply_ordered_deterministic kDot svdOne sqrtFix dataOne 1 _ _
    (apply_ordered_eq kDot svdOne sqrtFix dataOne 1 (by decide) (by decide))
    (apply_ordered_eq kDot svdOne sqrtFix dataOne 1 (by decide) (by decide))

/-- C9: an `Apply` call never modifies the dataset or the stored rank — the
configuration the call finishes with is exactly the configuration it was
invoked on, and the only value the call produces is the output matrix. -/
theorem apply_preserves_config (cfg : NystroemMethod)
    (select : Mat → ℕ → Except Err IdxVec) (svd : Mat → Mat × Vec × Mat)
    (sqrtF : Scalar → Scalar) :
    (applyState cfg select svd sqrtF).2 = cfg
    ∧ (applyState cfg select svd sqrtF).2.data = cfg.data
    ∧ (applyState cfg select svd sqrtF).2.rank = cfg.rank :=
  ⟨rfl, rfl, rfl⟩

/-- C4: every successful `Apply` call writes an output matrix with exactly
n rows and `rank` columns (given that the SVD collaborator returns a
right-singular-vector matrix with `rank` columns on a `rank × rank` input,
which is LAPACK's contract). -/
theorem apply_output_shape (kernel : Kernel)
    (select : Mat → ℕ → Except Err IdxVec) (svd : Mat → Mat × Vec × Mat)
    (sqrtF : Scalar → Scalar) (data : Mat) (rank : ℕ) (out : Mat)
    (hsvd : ∀ m : Mat, m.n_rows = rank → m.n_cols = rank →
      ((svd m).2.2).n_cols = rank)
    (h : apply kernel select svd sqrtF data rank = Except.ok out) :
    out.n_rows = data.n_cols ∧ out.n_cols = rank := by
  unfold apply at h
  cases hsel : select data rank with
  | error e =>
    rw [hsel] at h
    exact Except.noConfusion h
  | ok sel =>
    simp only [hsel, exceptOkBind] at h
    cases hblocks : getKernelMatrixIdx kernel data rank sel
        (Mat.mk' rank rank fun _ _ => 0)
        (Mat.mk' data.n_cols rank fun _ _ => 0) with
    | none =>
      rw [hblocks] at h
      exact Except.noConfusion h
    | some p =>
      obtain ⟨mini, semi⟩ := p
      rw [hblocks] at h
      rw [show liftBlocks (some (mini, semi)) = Except.ok (mini, semi) from rfl,
        exceptOkBind] at h
      simp only [show ∀ a : Mat, (pure a : Except Err Mat) = Except.ok a
        from fun _ => rfl, Except.ok.injEq] at h
      obtain ⟨hm1, hm2, hs1, _⟩ :=
        getKernelMatrixIdx_dims kernel data rank sel _ _ mini semi hblocks
      subst h
      constructor
      · simp only [Mat.mul_n_rows]
        exact hs1
      · simp only [Mat.mul_n_cols]
        exact hsvd mini hm1 hm2

/-- Witness for C4 on the one-point dataset at rank 1. -/
theorem apply_output_shape_example :
    (reconstructV (orderedSemi kDot dataOne 1)
        (svdOne (orderedMini kDot dataOne 1)).1
        (svdOne (orderedMini kDot dataOne 1)).2.1
        (svdOne (orderedMini kDot dataOne 1)).2.2 sqrtFix).n_rows
        = dataOne.n_cols
    ∧ (reconstructV (orderedSemi kDot dataOne 1)
        (svdOne (orderedMini kDot dataOne 1)).1
        (svdOne (orderedMini kDot dataOne 1)).2.1
        (svdOne (orderedMini kDot dataOne 1)).2.2 sqrtFix).n_cols = 1 :=
  apply_output_shape kDot orderedSelect svdOne sqrtFix dataOne 1 _
    (fun _ _ _ => rfl)
    (apply_ordered_eq kDot svdOne sqrtFix dataOne 1 (by decide) (by decide))

/-- C5: for every call to `GetKernelMatrix` (either overload) with a
landmark set of size `rank` over a dataset of n points, the call succeeds
and on return `MiniKernel[i,j] = kernel.Evaluate(landmark_i, landmark_j)`
for all `i, j < rank` and
`SemiKernel[i,j] = kernel.Evaluate(data_i, landmark_j)` for all
`i < n, j < rank`: every entry of both blocks is populated. -/
theorem getKernelMatrix_populates_blocks (kernel : Kernel) (data : Mat)
    (rank : ℕ) (selectedData : Mat) (sp : IdxVec)
    (g₁ g₂ g₃ g₄ : ℕ → ℕ → Scalar)
    (hselP : rank = selectedData.n_cols)
    (hlen : rank = sp.len)
    (hidx : ∀ j < rank, sp.entry j < data.n_cols) :
    (∃ mini semi,
      getKernelMatrixPts kernel data rank selectedData
          ⟨rank, rank, g₁⟩ ⟨data.n_cols, rank, g₂⟩ = some (mini, semi)
      ∧ (∀ i < rank, ∀ j < rank,
          mini.entry i j = kernel (selectedData.colD i) (selectedData.colD j))
      ∧ (∀ i < data.n_cols, ∀ j < rank,
          semi.entry i j = kernel (data.colD i) (selectedData.colD j)))
    ∧ (∃ mini semi,
      getKernelMatrixIdx kernel data rank sp
          ⟨rank, rank, g₃⟩ ⟨data.n_cols, rank, g₄⟩ = some (mini, semi)
      ∧ (∀ i < rank, ∀ j < rank,
          mini.entry i j
            = kernel (data.colD (sp.entry i)) (data.colD (sp.entry j)))
      ∧ (∀ i < data.n_cols, ∀ j < rank,
          semi.entry i j = kernel (data.colD i) (data.colD (sp.entry j)))) := by
  constructor
  · refine ⟨_, _, getKernelMatrixPts_eq kernel data rank selectedData g₁ g₂
      (le_of_eq hselP), ?_, ?_⟩
    · intro i hi j hj
      simp [hi, hj]
    · intro i hi j hj
      simp [hi, hj]
  · refine ⟨_, _, getKernelMatrixIdx_eq kernel data rank sp g₃ g₄
      (le_of_eq hlen) hidx, ?_, ?_⟩
    · intro i hi j hj
      simp [hi, hj]
    · intro i hi j hj
      simp [hi, hj]

/-- Witness for C5: a concrete call of both overloads on the two-point
dataset, rank 1, with junk-initialised blocks. -/
theorem getKernelMatrix_populates_blocks_example :
    (∃ mini semi,
      getKernelMatrixPts kDot dataTwo 1 (Mat.mk' 1 1 (fun _ _ => 3))
          ⟨1, 1, fun _ _ => 7⟩ ⟨dataTwo.n_cols, 1, fun _ _ => 8⟩
          = some (mini, semi)
      ∧ (∀ i < 1, ∀ j < 1,
          mini.entry i j
            = kDot ((Mat.mk' 1 1 (fun _ _ => 3)).colD i)
              ((Mat.mk' 1 1 (fun _ _ => 3)).colD j))
      ∧ (∀ i < dataTwo.n_cols, ∀ j < 1,
          semi.entry i j
            = kDot (dataTwo.colD i) ((Mat.mk' 1 1 (fun _ _ => 3)).colD j)))
    ∧ (∃ mini semi,
      getKernelMatrixIdx kDot dataTwo 1 ⟨1, fun _ => 0⟩
          ⟨1, 1, fun _ _ => 7⟩ ⟨dataTwo.n_cols, 1, fun _ _ => 8⟩
          = some (mini, semi)
      ∧ (∀ i < 1, ∀ j < 1,
          mini.entry i j
            = kDot (dataTwo.colD ((⟨1, fun _ => 0⟩ : IdxVec).entry i))
              (dataTwo.colD ((⟨1, fun _ => 0⟩ : IdxVec).entry j)))
      ∧ (∀ i < dataTwo.n_cols, ∀ j < 1,
          semi.entry i j
            = kDot (dataTwo.colD i)
              (dataTwo.colD ((⟨1, fun _ => 0⟩ : IdxVec).entry j)))) :=
  getKernelMatrix_populates_blocks kDot dataTwo 1 (Mat.mk' 1 1 (fun _ _ => 3))
    ⟨1, fun _ => 0⟩ (fun _ _ => 7) (fun _ _ => 8) (fun _ _ => 7) (fun _ _ => 8)
    (by decide) (by decide) (by decide)

/-- C8: with a symmetric kernel the mini-kernel produced by either
`GetKernelMatrix` overload is symmetric:
`MiniKernel[i,j] = MiniKernel[j,i]` for all `i, j < rank`. -/
theorem miniKernel_symmetric (kernel : Kernel) (data : Mat) (rank : ℕ)
    (selectedData : Mat) (sp : IdxVec) (g₁ g₂ g₃ g₄ : ℕ → ℕ → Scalar)
    (hsym : ∀ v w, kernel v w = kernel w v)
    (hselP : rank ≤ selectedData.n_cols)
    (hlen : rank ≤ sp.len)
    (hidx : ∀ j < rank, sp.entry j < data.n_cols) :
    (∀ mini semi,
      getKernelMatrixPts kernel data rank selectedData
          ⟨rank, rank, g₁⟩ ⟨data.n_cols, rank, g₂⟩ = some (mini, semi) →
      ∀ i < rank, ∀ j < rank, mini.entry i j = mini.entry j i)
    ∧ (∀ mini semi,
      getKernelMatrixIdx kernel data rank sp
          ⟨rank, rank, g₃⟩ ⟨data.n_cols, rank, g₄⟩ = some (mini, semi) →
      ∀ i < rank, ∀ j < rank, mini.entry i j = mini.entry j i) := by
  constructor
  · intro mini semi hcall i hi j hj
    rw [getKernelMatrixPts_eq kernel data rank selectedData g₁ g₂ hselP]
      at hcall
    injection hcall with hcall
    injection hcall with e₁ e₂
    subst e₁
    simp only [hi, hj, and_self, if_pos, true_and]
    exact hsym _ _
  · intro mini semi hcall i hi j hj
    rw [getKernelMatrixIdx_eq kernel data rank sp g₃ g₄ hlen hidx] at hcall
    injection hcall with hcall
    injection hcall with e₁ e₂
    subst e₁
    simp only [hi, hj, and_self, if_pos, true_and]
    exact hsym _ _

/-- Witness for C8 with the symmetric dot-product kernel at rank 2. -/
theorem miniKernel_symmetric_example :
    (∀ mini semi,
      getKernelMatrixPts kDot dataTwo 2 dataTwo
          ⟨2, 2, fun _ _ => 0⟩ ⟨dataTwo.n_cols, 2, fun _ _ => 0⟩
          = some (mini, semi) →
      ∀ i < 2, ∀ j < 2, mini.entry i j = mini.entry j i)
    ∧ (∀ mini semi,
      getKernelMatrixIdx kDot dataTwo 2 ⟨2, fun i => i⟩
          ⟨2, 2, fun _ _ => 0⟩ ⟨dataTwo.n_cols, 2, fun _ _ => 0⟩
          = some (mini, semi) →
      ∀ i < 2, ∀ j < 2, mini.entry i j = mini.entry j i) :=
  miniKernel_symmetric kDot dataTwo 2 dataTwo ⟨2, fun i => i⟩
    (fun _ _ => 0) (fun _ _ => 0) (fun _ _ => 0) (fun _ _ => 0)
    (fun v w => by
      unfold kDot
      rw [Nat.min_comm]
      exact Finset.sum_congr rfl fun i _ => mul_comm _ _)
    (by decide) (by decide) (by decide)

/-- C10: the index-based `GetKernelMatrix` overload does no bounds checking
of its own; under the precondition that the index vector has at least `rank`
entries all pointing at dataset columns and the blocks have the right
shapes, every access is in bounds and the error branch is unreachable —
while a single out-of-range selected index (here `5` against a two-column
dataset) makes the column access fail. -/
theorem getKernelMatrixIdx_bounds :
    (∀ (kernel : Kernel) (data : Mat) (rank : ℕ) (sp : IdxVec)
      (g₁ g₂ : ℕ → ℕ → Scalar),
      rank ≤ sp.len → (∀ j < rank, sp.entry j < data.n_cols) →
      (getKernelMatrixIdx kernel data rank sp
        ⟨rank, rank, g₁⟩ ⟨data.n_cols, rank, g₂⟩).isSome = true)
    ∧ (getKernelMatrixIdx kDot dataTwo 1 ⟨1, fun _ => 5⟩
        ⟨1, 1, fun _ _ => 0⟩ ⟨dataTwo.n_cols, 1, fun _ _ => 0⟩).isNone
        = true := by
  constructor
  · intro kernel data rank sp g₁ g₂ hlen hidx
    rw [getKernelMatrixIdx_eq kernel data rank sp g₁ g₂ hlen hidx]
    rfl
  · decide

/-- Witness for C10's preconditioned success half at a concrete instance. -/
theorem getKernelMatrixIdx_bounds_example :
    (getKernelMatrixIdx kDot dataTwo 1 ⟨1, fun _ => 1⟩
      ⟨1, 1, fun _ _ => 0⟩ ⟨dataTwo.n_cols, 1, fun _ _ => 0⟩).isSome
      = true :=
  getKernelMatrixIdx_bounds.1 kDot dataTwo 1 ⟨1, fun _ => 1⟩
    (fun _ _ => 0) (fun _ _ => 0) (by decide) (by decide)

/-- The normalization the code builds, `diagmat(1.0 / sqrt(s))`, is exactly
the spec's `N = diag(1/sqrt(s_i))`. -/
theorem diagmat_map_eq_specNormalization (s : Vec) (sqrtF : Scalar → Scalar) :
    Mat.diagmat (Vec.map (fun x => 1 / sqrtF x) s)
      = specNormalization s sqrtF := by
  unfold Mat.diagmat Vec.map specNormalization Mat.mk'
  simp only
  congr 1
  funext i j
  by_cases h : i < s.len ∧ j < s.len
  · by_cases hij : i = j
    · subst hij
      simp [h.1]
    · simp [hij]
  · simp [h]

/-- C1 counterexample: a call of `Apply` on the two-point dataset `dataC1`
with the lookup kernel `kC1` (whose mini-kernel is symmetric positive
definite), an SVD oracle returning the exact, verified SVD
`U = rotMat, s = (25, 1), V = rotMat` of that mini-kernel, and exact square
roots.  The reconstruction step is reached, yet the produced factor differs
from `SemiKernel · U · N · Vᵗ`: entry `(0,0)` is `29/25` while the claimed
formula gives `61/25`. -/
theorem apply_output_factor_ne_spec_VT :
    Mat.Ext ((rotMat.mul
        (Mat.diagmat (svdC1 (orderedMini kC1 dataC1 2)).2.1)).mul rotMat.tr)
      (orderedMini kC1 dataC1 2)
    ∧ Mat.Ext (rotMat.tr.mul rotMat) (idMat 2)
    ∧ Mat.Ext (rotMat.mul rotMat.tr) (idMat 2)
    ∧ (svdC1 (orderedMini kC1 dataC1 2)).2.1.entry 0
        ≥ (svdC1 (orderedMini kC1 dataC1 2)).2.1.entry 1
    ∧ (svdC1 (orderedMini kC1 dataC1 2)).2.1.entry 1 ≥ 0
    ∧ sqrtFix 25 * sqrtFix 25 = 25
    ∧ sqrtFix 1 * sqrtFix 1 = 1
    ∧ okEntry (apply kC1 orderedSelect svdC1 sqrtFix dataC1 2) 0 0
        = some (29 / 25)
    ∧ (specOutputFactorVT (orderedSemi kC1 dataC1 2)
        (svdC1 (orderedMini kC1 dataC1 2)).1
        (svdC1 (orderedMini kC1 dataC1 2)).2.1
        (svdC1 (orderedMini kC1 dataC1 2)).2.2 sqrtFix).entry 0 0 = 61 / 25
    ∧ (29 / 25 : Scalar) ≠ 61 / 25 := by
  have happly : apply kC1 orderedSelect svdC1 sqrtFix dataC1 2
      = Except.ok (reconstructV (orderedSemi kC1 dataC1 2)
        (svdC1 (orderedMini kC1 dataC1 2)).1
        (svdC1 (orderedMini kC1 dataC1 2)).2.1
        (svdC1 (orderedMini kC1 dataC1 2)).2.2 sqrtFix) :=
    apply_ordered_eq kC1 svdC1 sqrtFix dataC1 2 (by decide) (by decide)
  refine ⟨⟨rfl, rfl, ?_⟩, ⟨rfl, rfl, ?_⟩, ⟨rfl, rfl, ?_⟩, ?_, ?_, ?_, ?_,
    ?_, ?_, ?_⟩
  · intro i hi j hj
    have hi' : i < 2 := hi
    have hj' : j < 2 := hj
    clear hi hj
    interval_cases i <;> interval_cases j <;>
      norm_num [Mat.mul, Mat.tr, Mat.diagmat, Mat.mk', Mat.colD, svdC1,
        orderedMini, fullMini, rotMat, kC1, dataC1,
        Finset.sum_range_succ, Finset.sum_range_zero]
  · intro i hi j hj
    have hi' : i < 2 := hi
    have hj' : j < 2 := hj
    clear hi hj
    interval_cases i <;> interval_cases j <;>
      norm_num [Mat.mul, Mat.tr, Mat.mk', idMat, rotMat,
        Finset.sum_range_succ, Finset.sum_range_zero]
  · intro i hi j hj
    have hi' : i < 2 := hi
    have hj' : j < 2 := hj
    clear hi hj
    interval_cases i <;> interval_cases j <;>
      norm_num [Mat.mul, Mat.tr, Mat.mk', idMat, rotMat,
        Finset.sum_range_succ, Finset.sum_range_zero]
  · norm_num [svdC1]
  · norm_num [svdC1]
  · norm_num [sqrtFix]
  · norm_num [sqrtFix]
  · rw [happly]
    norm_num [okEntry, reconstructV, Mat.mul, Mat.diagmat, Vec.map, Mat.mk',
      Mat.colD, orderedSemi, fullSemi, svdC1, rotMat, kC1, dataC1, sqrtFix,
      Finset.sum_range_succ, Finset.sum_range_zero]
  · norm_num [specOutputFactorVT, specNormalization, Mat.mul, Mat.tr,
      Mat.diagmat, Mat.mk', Mat.colD, orderedSemi, fullSemi, svdC1, rotMat,
      kC1, dataC1, sqrtFix, Finset.sum_range_succ, Finset.sum_range_zero]
  · norm_num

/-- C1 (corrected): for every call to `Apply` (Ordered policy) that reaches
the reconstruction step, the output factor equals
`SemiKernel · U · N · V` — the assembled factor multiplies by `V` itself,
not by its transpose. -/
theorem apply_ordered_output_factor_V (kernel : Kernel)
    (svd : Mat → Mat × Vec × Mat) (sqrtF : Scalar → Scalar)
    (data : Mat) (rank : ℕ) (h1 : rank ≠ 0) (h2 : rank ≤ data.n_cols) :
    apply kernel orderedSelect svd sqrtF data rank
      = Except.ok ((((orderedSemi kernel data rank).mul
          (svd (orderedMini kernel data rank)).1).mul
          (specNormalization (svd (orderedMini kernel data rank)).2.1 sqrtF)).mul
          (svd (orderedMini kernel data rank)).2.2) := by
  rw [apply_ordered_eq kernel svd sqrtF data rank h1 h2]
  unfold reconstructV
  rw [diagmat_map_eq_specNormalization]

/-- Witness for corrected C1 on the one-point dataset at rank 1. -/
theorem apply_ordered_output_factor_V_example :
    apply kDot orderedSelect svdOne sqrtFix dataOne 1
      = Except.ok ((((orderedSemi kDot dataOne 1).mul
          (svdOne (orderedMini kDot dataOne 1)).1).mul
          (specNormalization (svdOne (orderedMini kDot dataOne 1)).2.1
            sqrtFix)).mul
          (svdOne (orderedMini kDot dataOne 1)).2.2) :=
  apply_ordered_output_factor_V kDot svdOne sqrtFix dataOne 1
    (by decide) (by decide)

/-- C3 counterexample: on the two-point dataset `dataTwo` with the kernel
`kC3`, the mini-kernel's exact, verified SVD has `s = (25, 10⁻⁴⁰)` — the
second singular value is positive but far below
`s_max · machineEps = 25 · 2⁻⁵²`.  `Apply` succeeds (no
`NumericalDegeneracy` is signalled), its normalization divides by
`sqrt(s_1)`, producing the explosively large entry `10²⁰`, and the assembled
factor differs from the factor with that component dropped — so the
component is neither dropped nor rejected. -/
theorem apply_divides_by_degenerate_singular_value :
    Mat.Ext ((rotMat.mul
        (Mat.diagmat (svdC3 (orderedMini kC3 dataTwo 2)).2.1)).mul rotMat.tr)
      (orderedMini kC3 dataTwo 2)
    ∧ 0 < (svdC3 (orderedMini kC3 dataTwo 2)).2.1.entry 1
    ∧ (svdC3 (orderedMini kC3 dataTwo 2)).2.1.entry 1
        ≤ (svdC3 (orderedMini kC3 dataTwo 2)).2.1.entry 0 * machineEps
    ∧ exceptIsOk (apply kC3 orderedSelect svdC3 sqrtFix dataTwo 2) = true
    ∧ (Mat.diagmat (Vec.map (fun x => 1 / sqrtFix x)
        (svdC3 (orderedMini kC3 dataTwo 2)).2.1)).entry 1 1 = 10 ^ 20
    ∧ okEntry (apply kC3 orderedSelect svdC3 sqrtFix dataTwo 2) 0 0
        = some (281249999999999999999 / 156250000000000000000)
    ∧ (dropReconstructV (orderedSemi kC3 dataTwo 2)
        (svdC3 (orderedMini kC3 dataTwo 2)).1
        (svdC3 (orderedMini kC3 dataTwo 2)).2.1
        (svdC3 (orderedMini kC3 dataTwo 2)).2.2 sqrtFix
        ((svdC3 (orderedMini kC3 dataTwo 2)).2.1.entry 0 * machineEps)).entry
        0 0 = 9 / 5
    ∧ (281249999999999999999 / 156250000000000000000 : Scalar) ≠ 9 / 5 := by
  have happly : apply kC3 orderedSelect svdC3 sqrtFix dataTwo 2
      = Except.ok (reconstructV (orderedSemi kC3 dataTwo 2)
        (svdC3 (orderedMini kC3 dataTwo 2)).1
        (svdC3 (orderedMini kC3 dataTwo 2)).2.1
        (svdC3 (orderedMini kC3 dataTwo 2)).2.2 sqrtFix) :=
    apply_ordered_eq kC3 svdC3 sqrtFix dataTwo 2 (by decide) (by decide)
  refine ⟨⟨rfl, rfl, ?_⟩, ?_, ?_, ?_, ?_, ?_, ?_, ?_⟩
  · intro i hi j hj
    have hi' : i < 2 := hi
    have hj' : j < 2 := hj
    clear hi hj
    interval_cases i <;> interval_cases j <;>
      norm_num [Mat.mul, Mat.tr, Mat.diagmat, Mat.mk', Mat.colD, svdC3,
        orderedMini, fullMini, rotMat, kC3, dataTwo,
        Finset.sum_range_succ, Finset.sum_range_zero]
  · norm_num [svdC3]
  · norm_num [svdC3, machineEps]
  · rw [happly]
    rfl
  · norm_num [Mat.diagmat, Vec.map, Mat.mk', svdC3, sqrtFix]
  · rw [happly]
    norm_num [okEntry, reconstructV, Mat.mul, Mat.diagmat, Vec.map, Mat.mk',
      Mat.colD, orderedSemi, fullSemi, svdC3, rotMat, kC3, dataTwo, sqrtFix,
      Finset.sum_range_succ, Finset.sum_range_zero]
  · norm_num [dropReconstructV, specDropNormalization, Mat.mul, Mat.diagmat,
      Mat.mk', Mat.colD, orderedSemi, fullSemi, svdC3, rotMat, kC3, dataTwo,
      sqrtFix, machineEps, Finset.sum_range_succ, Finset.sum_range_zero]
  · norm_num

/-- C3 (corrected): `Apply` applies no singular-value threshold policy at
all — it never signals `NumericalDegeneracy`, and whenever the
reconstruction step is reached it builds the normalization entry
`1/sqrt(s_i)` for every component `i`, degenerate or not, and assembles all
of them into the factor. -/
theorem apply_no_degeneracy_policy (kernel : Kernel)
    (svd : Mat → Mat × Vec × Mat) (sqrtF : Scalar → Scalar)
    (data : Mat) (rank : ℕ) :
    (∀ e, apply kernel orderedSelect svd sqrtF data rank
        = Except.error e → e ≠ Err.numericalDegeneracy)
    ∧ (rank ≠ 0 → rank ≤ data.n_cols →
      apply kernel orderedSelect svd sqrtF data rank
          = Except.ok (reconstructV (orderedSemi kernel data rank)
            (svd (orderedMini kernel data rank)).1
            (svd (orderedMini kernel data rank)).2.1
            (svd (orderedMini kernel data rank)).2.2 sqrtF)
      ∧ ∀ i < (svd (orderedMini kernel data rank)).2.1.len,
          (Mat.diagmat (Vec.map (fun x => 1 / sqrtF x)
            (svd (orderedMini kernel data rank)).2.1)).entry i i
            = 1 / sqrtF ((svd (orderedMini kernel data rank)).2.1.entry i)) := by
  constructor
  · intro e he
    by_cases hv : rank = 0 ∨ data.n_cols < rank
    · rw [apply_invalid_rank kernel svd sqrtF data rank hv] at he
      injection he with he
      subst he
      decide
    · have h1 : rank ≠ 0 := fun h => hv (Or.inl h)
      have h2 : rank ≤ data.n_cols :=
        Nat.le_of_not_lt (fun h => hv (Or.inr h))
      rw [apply_ordered_eq kernel svd sqrtF data rank h1 h2] at he
      exact Except.noConfusion he
  · intro h1 h2
    refine ⟨apply_ordered_eq kernel svd sqrtF data rank h1 h2, ?_⟩
    intro i hi
    simp [Mat.diagmat, Vec.map, Mat.mk', hi]

/-- Witness for corrected C3: the normalization entries on the `kC3`
fixture, including the degenerate component `1`. -/
theorem apply_no_degeneracy_policy_example :
    apply kC3 orderedSelect svdC3 sqrtFix dataTwo 2
        = Except.ok (reconstructV (orderedSemi kC3 dataTwo 2)
          (svdC3 (orderedMini kC3 dataTwo 2)).1
          (svdC3 (orderedMini kC3 dataTwo 2)).2.1
          (svdC3 (orderedMini kC3 dataTwo 2)).2.2 sqrtFix)
    ∧ ∀ i < (svdC3 (orderedMini kC3 dataTwo 2)).2.1.len,
        (Mat.diagmat (Vec.map (fun x => 1 / sqrtFix x)
          (svdC3 (orderedMini kC3 dataTwo 2)).2.1)).entry i i
          = 1 / sqrtFix ((svdC3 (orderedMini kC3 dataTwo 2)).2.1.entry i) :=
  (apply_no_degeneracy_policy kC3 svdC3 sqrtFix dataTwo 2).2
    (by decide) (by decide)

/-- Kronecker collapse: summing `X t · δ(t, c)` over `t < n` gives `X c`. -/
theorem sum_mul_ite (n c : ℕ) (hc : c < n) (X : ℕ → Scalar) :
    (∑ t ∈ Finset.range n, X t * (if t = c then 1 else 0)) = X c := by
  have hterm : ∀ t, X t * (if t = c then 1 else 0)
      = if t = c then X t else 0 := by
    intro t
    by_cases h : t = c <;> simp [h]
  simp only [hterm]
  rw [Finset.sum_ite_eq']
  simp [Finset.mem_range, hc]

/-- C6: when `rank == n` and the Ordered policy selects all n points as
landmarks, the product `OutputFactor · OutputFactorᵗ` of the matrix returned
by `Apply` equals the true full kernel matrix exactly.  The hypotheses state
what the spec assumes of the collaborators: the kernel is symmetric and its
matrix positive semidefinite, the SVD oracle returned a genuine SVD
(`MiniKernel = U·diag(s)·Vᵗ` with orthogonal `U`, `V` and positive singular
values), and the square-root oracle returned exact square roots. -/
theorem apply_rank_n_exact (kernel : Kernel) (svd : Mat → Mat × Vec × Mat)
    (sqrtF : Scalar → Scalar) (data : Mat) (n : ℕ)
    (U : Mat) (s : Vec) (V : Mat) (out : Mat)
    (hn : data.n_cols = n) (hn0 : n ≠ 0)
    (hUSV : svd (orderedMini kernel data n) = (U, s, V))
    (hU2 : U.n_cols = n) (hV2 : V.n_cols = n) (hslen : s.len = n)
    (hker : ∀ v w, kernel v w = kernel w v)
    (hsvd : ∀ i < n, ∀ j < n,
      (orderedMini kernel data n).entry i j
        = ∑ t ∈ Finset.range n, U.entry i t * s.entry t * V.entry j t)
    (hUo1 : ∀ i < n, ∀ j < n,
      (∑ k ∈ Finset.range n, U.entry k i * U.entry k j)
        = if i = j then 1 else 0)
    (hVo1 : ∀ i < n, ∀ j < n,
      (∑ k ∈ Finset.range n, V.entry k i * V.entry k j)
        = if i = j then 1 else 0)
    (hVo2 : ∀ i < n, ∀ j < n,
      (∑ k ∈ Finset.range n, V.entry i k * V.entry j k)
        = if i = j then 1 else 0)
    (hpos : ∀ t < n, 0 < s.entry t)
    (hPSD : ∀ x : ℕ → Scalar,
      0 ≤ ∑ i ∈ Finset.range n, ∑ j ∈ Finset.range n,
        x i * (orderedMini kernel data n).entry i j * x j)
    (hsq : ∀ t < n, sqrtF (s.entry t) * sqrtF (s.entry t) = s.entry t)
    (happly : apply kernel orderedSelect svd sqrtF data n = Except.ok out) :
    ∀ i < n, ∀ j < n,
      (∑ m ∈ Finset.range n, out.entry i m * out.entry j m)
        = kernel (data.colD i) (data.colD j) := by
  set M := orderedMini kernel data n with hM
  set Semi := orderedSemi kernel data n with hSemi
  -- The kernel-matrix entries.
  have hKdef : ∀ i < n, ∀ j < n,
      M.entry i j = kernel (data.colD i) (data.colD j) := by
    intro i hi j hj
    simp [hM, orderedMini, fullMini, Mat.mk', hi, hj]
  have hSemiEq : ∀ i < n, ∀ j < n, Semi.entry i j = M.entry i j := by
    intro i hi j hj
    have hi' : i < data.n_cols := by rw [hn]; exact hi
    simp [hSemi, hM, orderedSemi, fullSemi, orderedMini, fullMini, Mat.mk',
      hi, hj, hi']
  have hKsym : ∀ i < n, ∀ j < n, M.entry i j = M.entry j i := by
    intro i hi j hj
    rw [hKdef i hi j hj, hKdef j hj i hi]
    exact hker _ _
  -- K · V = U · diag(s) columnwise.
  have hKV : ∀ i < n, ∀ c < n,
      (∑ a ∈ Finset.range n, M.entry i a * V.entry a c)
        = U.entry i c * s.entry c := by
    intro i hi c hc
    have h1 : (∑ a ∈ Finset.range n, M.entry i a * V.entry a c)
        = ∑ a ∈ Finset.range n, ∑ t ∈ Finset.range n,
            (U.entry i t * s.entry t) * (V.entry a t * V.entry a c) := by
      refine Finset.sum_congr rfl fun a ha => ?_
      rw [hsvd i hi a (Finset.mem_range.mp ha), Finset.sum_mul]
      exact Finset.sum_congr rfl fun t _ => by ring
    rw [h1, Finset.sum_comm]
    have h2 : ∀ t ∈ Finset.range n,
        (∑ a ∈ Finset.range n,
          (U.entry i t * s.entry t) * (V.entry a t * V.entry a c))
        = (U.entry i t * s.entry t) * (if t = c then 1 else 0) := by
      intro t ht
      rw [← Finset.mul_sum, hVo1 t (Finset.mem_range.mp ht) c hc]
    rw [Finset.sum_congr rfl h2, sum_mul_ite n c hc]
  -- K · U = V · diag(s) columnwise (uses symmetry of K).
  have hKU : ∀ i < n, ∀ c < n,
      (∑ a ∈ Finset.range n, M.entry i a * U.entry a c)
        = V.entry i c * s.entry c := by
    intro i hi c hc
    have h1 : (∑ a ∈ Finset.range n, M.entry i a * U.entry a c)
        = ∑ a ∈ Finset.range n, ∑ t ∈ Finset.range n,
            (V.entry i t * s.entry t) * (U.entry a t * U.entry a c) := by
      refine Finset.sum_congr rfl fun a ha => ?_
      rw [hKsym i hi a (Finset.mem_range.mp ha),
        hsvd a (Finset.mem_range.mp ha) i hi, Finset.sum_mul]
      exact Finset.sum_congr rfl fun t _ => by ring
    rw [h1, Finset.sum_comm]
    have h2 : ∀ t ∈ Finset.range n,
        (∑ a ∈ Finset.range n,
          (V.entry i t * s.entry t) * (U.entry a t * U.entry a c))
        = (V.entry i t * s.entry t) * (if t = c then 1 else 0) := by
      intro t ht
      rw [← Finset.mul_sum, hUo1 t (Finset.mem_range.mp ht) c hc]
    rw [Finset.sum_congr rfl h2, sum_mul_ite n c hc]
  -- Positive semidefiniteness forces U = V on the in-range block.
  have hUV : ∀ t < n, ∀ a < n, U.entry a t = V.entry a t := by
    intro c hc
    have hKx : ∀ i < n,
        (∑ j ∈ Finset.range n,
          M.entry i j * (U.entry j c - V.entry j c))
        = -(s.entry c) * (U.entry i c - V.entry i c) := by
      intro i hi
      have hsplit : (∑ j ∈ Finset.range n,
          M.entry i j * (U.entry j c - V.entry j c))
          = (∑ j ∈ Finset.range n, M.entry i j * U.entry j c)
            - (∑ j ∈ Finset.range n, M.entry i j * V.entry j c) := by
        rw [← Finset.sum_sub_distrib]
        exact Finset.sum_congr rfl fun j _ => by ring
      rw [hsplit, hKU i hi c hc, hKV i hi c hc]
      ring
    have hQ : (∑ i ∈ Finset.range n, ∑ j ∈ Finset.range n,
        (U.entry i c - V.entry i c) * M.entry i j
          * (U.entry j c - V.entry j c))
        = -(s.entry c) * ∑ i ∈ Finset.range n,
            (U.entry i c - V.entry i c) * (U.entry i c - V.entry i c) := by
      have h1 : ∀ i ∈ Finset.range n,
          (∑ j ∈ Finset.range n,
            (U.entry i c - V.entry i c) * M.entry i j
              * (U.entry j c - V.entry j c))
          = (U.entry i c - V.entry i c)
            * (-(s.entry c) * (U.entry i c - V.entry i c)) := by
        intro i hi
        rw [← hKx i (Finset.mem_range.mp hi), Finset.mul_sum]
        exact Finset.sum_congr rfl fun j _ => by ring
      rw [Finset.sum_congr rfl h1, Finset.mul_sum]
      exact Finset.sum_congr rfl fun i _ => by ring
    have h0 := hPSD (fun a => U.entry a c - V.entry a c)
    rw [hQ] at h0
    have hpc := hpos c hc
    have hsumnn : 0 ≤ ∑ i ∈ Finset.range n,
        (U.entry i c - V.entry i c) * (U.entry i c - V.entry i c) :=
      Finset.sum_nonneg fun i _ => mul_self_nonneg _
    have hsum0 : (∑ i ∈ Finset.range n,
        (U.entry i c - V.entry i c) * (U.entry i c - V.entry i c)) = 0 := by
      nlinarith
    intro a ha
    have hterm := (Finset.sum_eq_zero_iff_of_nonneg
      (fun i _ => mul_self_nonneg (U.entry i c - V.entry i c))).mp hsum0 a
      (Finset.mem_range.mpr ha)
    have := mul_self_eq_zero.mp hterm
    linarith [this]
  -- Identify the output with the reconstruction formula.
  have h2n : n ≤ data.n_cols := le_of_eq hn.symm
  have heq := apply_ordered_eq kernel svd sqrtF data n hn0 h2n
  rw [← hM, ← hSemi, hUSV] at heq
  rw [heq] at happly
  have hout : out = reconstructV Semi U s V sqrtF :=
    (Except.ok.inj happly).symm
  subst hout
  -- Entry formulas down the product chain.
  set N := Mat.diagmat (Vec.map (fun x => 1 / sqrtF x) s) with hN
  have hA : ∀ i < n, ∀ c < n,
      (Semi.mul U).entry i c = V.entry i c * s.entry c := by
    intro i hi c hc
    have hiS : i < Semi.n_rows := by
      rw [show Semi.n_rows = data.n_cols from rfl, hn]
      exact hi
    have hcU : c < U.n_cols := by rw [hU2]; exact hc
    rw [Mat.mul_entry Semi U i c hiS hcU,
      show Semi.n_cols = n from rfl]
    rw [Finset.sum_congr rfl fun a ha =>
      by rw [hSemiEq i hi a (Finset.mem_range.mp ha)]]
    exact hKU i hi c hc
  have hNentry : ∀ b < n, ∀ c < n,
      N.entry b c = if b = c then 1 / sqrtF (s.entry b) else 0 := by
    intro b hb c hc
    have hbs : b < s.len := by rw [hslen]; exact hb
    have hcs : c < s.len := by rw [hslen]; exact hc
    simp [hN, Mat.diagmat, Vec.map, Mat.mk', hbs, hcs]
  have hB : ∀ i < n, ∀ c < n,
      ((Semi.mul U).mul N).entry i c
        = (V.entry i c * s.entry c) * (1 / sqrtF (s.entry c)) := by
    intro i hi c hc
    have hiA : i < (Semi.mul U).n_rows := by
      rw [Mat.mul_n_rows, show Semi.n_rows = data.n_cols from rfl, hn]
      exact hi
    have hcN : c < N.n_cols := by
      rw [show N.n_cols = (Vec.map (fun x => 1 / sqrtF x) s).len from rfl,
        show (Vec.map (fun x => 1 / sqrtF x) s).len = s.len from rfl, hslen]
      exact hc
    rw [Mat.mul_entry _ N i c hiA hcN,
      show (Semi.mul U).n_cols = U.n_cols from rfl, hU2]
    have hterm : ∀ b ∈ Finset.range n,
        (Semi.mul U).entry i b * N.entry b c
        = ((Semi.mul U).entry i b * (1 / sqrtF (s.entry b)))
            * (if b = c then 1 else 0) := by
      intro b hb
      rw [hNentry b (Finset.mem_range.mp hb) c hc]
      by_cases h : b = c <;> simp [h]
    rw [Finset.sum_congr rfl hterm, sum_mul_ite n c hc, hA i hi c hc]
  have hOut : ∀ i < n, ∀ m < n,
      (reconstructV Semi U s V sqrtF).entry i m
        = ∑ c ∈ Finset.range n,
            (V.entry i c * s.entry c * (1 / sqrtF (s.entry c)))
              * V.entry c m := by
    intro i hi m hm
    have hiB : i < ((Semi.mul U).mul N).n_rows := by
      rw [Mat.mul_n_rows, Mat.mul_n_rows,
        show Semi.n_rows = data.n_cols from rfl, hn]
      exact hi
    have hmV : m < V.n_cols := by rw [hV2]; exact hm
    show (((Semi.mul U).mul N).mul V).entry i m = _
    rw [Mat.mul_entry _ V i m hiB hmV,
      show ((Semi.mul U).mul N).n_cols = N.n_cols from rfl,
      show N.n_cols = (Vec.map (fun x => 1 / sqrtF x) s).len from rfl,
      show (Vec.map (fun x => 1 / sqrtF x) s).len = s.len from rfl, hslen]
    refine Finset.sum_congr rfl fun c hcm => ?_
    rw [hB i hi c (Finset.mem_range.mp hcm)]
  -- Assemble G·Gᵗ and collapse.
  intro i hi j hj
  have hexp : (∑ m ∈ Finset.range n,
      (reconstructV Semi U s V sqrtF).entry i m
        * (reconstructV Semi U s V sqrtF).entry j m)
      = ∑ c ∈ Finset.range n, ∑ e ∈ Finset.range n,
          (V.entry i c * s.entry c * (1 / sqrtF (s.entry c)))
            * (V.entry j e * s.entry e * (1 / sqrtF (s.entry e)))
            * (∑ m ∈ Finset.range n, V.entry c m * V.entry e m) := by
    have h1 : ∀ m ∈ Finset.range n,
        (reconstructV Semi U s V sqrtF).entry i m
          * (reconstructV Semi U s V sqrtF).entry j m
        = ∑ c ∈ Finset.range n, ∑ e ∈ Finset.range n,
            ((V.entry i c * s.entry c * (1 / sqrtF (s.entry c)))
              * V.entry c m)
              * ((V.entry j e * s.entry e * (1 / sqrtF (s.entry e)))
                * V.entry e m) := by
      intro m hm
      rw [hOut i hi m (Finset.mem_range.mp hm),
        hOut j hj m (Finset.mem_range.mp hm), Finset.sum_mul_sum]
    rw [Finset.sum_congr rfl h1, Finset.sum_comm]
    refine Finset.sum_congr rfl fun c _ => ?_
    rw [Finset.sum_comm]
    refine Finset.sum_congr rfl fun e _ => ?_
    rw [Finset.mul_sum]
    exact Finset.sum_congr rfl fun m _ => by ring
  rw [hexp]
  have hcollapse : ∀ c ∈ Finset.range n,
      (∑ e ∈ Finset.range n,
        (V.entry i c * s.entry c * (1 / sqrtF (s.entry c)))
          * (V.entry j e * s.entry e * (1 / sqrtF (s.entry e)))
          * (∑ m ∈ Finset.range n, V.entry c m * V.entry e m))
      = V.entry i c * s.entry c * V.entry j c := by
    intro c hcm
    have hc := Finset.mem_range.mp hcm
    have h1 : ∀ e ∈ Finset.range n,
        (V.entry i c * s.entry c * (1 / sqrtF (s.entry c)))
          * (V.entry j e * s.entry e * (1 / sqrtF (s.entry e)))
          * (∑ m ∈ Finset.range n, V.entry c m * V.entry e m)
        = ((V.entry i c * s.entry c * (1 / sqrtF (s.entry c)))
            * (V.entry j e * s.entry e * (1 / sqrtF (s.entry e))))
            * (if e = c then 1 else 0) := by
      intro e hem
      have he := Finset.mem_range.mp hem
      rw [hVo2 c hc e he]
      by_cases h : c = e
      · subst h
        simp
      · have h' : ¬ e = c := fun hec => h hec.symm
        simp [h, h']
    rw [Finset.sum_congr rfl h1, sum_mul_ite n c hc]
    have hr := hsq c hc
    have hsne : s.entry c ≠ 0 := ne_of_gt (hpos c hc)
    have key : (1 / sqrtF (s.entry c)) * (1 / sqrtF (s.entry c))
        = 1 / s.entry c := by
      rw [div_mul_div_comm, one_mul, hr]
    calc (V.entry i c * s.entry c * (1 / sqrtF (s.entry c)))
          * (V.entry j c * s.entry c * (1 / sqrtF (s.entry c)))
        = (V.entry i c * V.entry j c * (s.entry c * s.entry c))
            * ((1 / sqrtF (s.entry c)) * (1 / sqrtF (s.entry c))) := by ring
      _ = (V.entry i c * V.entry j c * (s.entry c * s.entry c))
            * (1 / s.entry c) := by rw [key]
      _ = V.entry i c * s.entry c * V.entry j c := by
          field_simp
          ring
  rw [Finset.sum_congr rfl hcollapse]
  have hfinal : (∑ c ∈ Finset.range n,
      V.entry i c * s.entry c * V.entry j c)
      = M.entry i j := by
    rw [hsvd i hi j hj]
    refine Finset.sum_congr rfl fun t htm => ?_
    rw [hUV t (Finset.mem_range.mp htm) i hi]
  rw [hfinal, hKdef i hi j hj]

/-- Witness for C6 on the one-point dataset, `rank = n = 1`, with the dot
kernel and the exact SVD `[4] = I·diag(4)·Iᵗ`. -/
theorem apply_rank_n_exact_example :
    (∑ m ∈ Finset.range 1,
      (reconstructV (orderedSemi kDot dataOne 1) (idMat 1)
          ⟨1, fun _ => 4⟩ (idMat 1) sqrtFix).entry 0 m
        * (reconstructV (orderedSemi kDot dataOne 1) (idMat 1)
          ⟨1, fun _ => 4⟩ (idMat 1) sqrtFix).entry 0 m)
      = kDot (dataOne.colD 0) (dataOne.colD 0) :=
  apply_rank_n_exact kDot svdOne sqrtFix dataOne 1 (idMat 1)
    ⟨1, fun _ => 4⟩ (idMat 1)
    (reconstructV (orderedSemi kDot dataOne 1) (idMat 1)
      ⟨1, fun _ => 4⟩ (idMat 1) sqrtFix)
    rfl (by decide) rfl rfl rfl rfl
    (fun v w => by
      unfold kDot
      rw [Nat.min_comm]
      exact Finset.sum_congr rfl fun i _ => mul_comm _ _)
    (by
      intro i hi j hj
      interval_cases i
      interval_cases j
      norm_num [orderedMini, fullMini, Mat.mk', Mat.colD, dataOne, kDot,
        idMat, Finset.sum_range_succ, Finset.sum_range_zero])
    (by
      intro i hi j hj
      interval_cases i
      interval_cases j
      norm_num [idMat, Mat.mk', Finset.sum_range_succ,
        Finset.sum_range_zero])
    (by
      intro i hi j hj
      interval_cases i
      interval_cases j
      norm_num [idMat, Mat.mk', Finset.sum_range_succ,
        Finset.sum_range_zero])
    (by
      intro i hi j hj
      interval_cases i
      interval_cases j
      norm_num [idMat, Mat.mk', Finset.sum_range_succ,
        Finset.sum_range_zero])
    (by
      intro t ht
      interval_cases t
      norm_num)
    (by
      intro x
      have hM : (orderedMini kDot dataOne 1).entry 0 0 = 4 := by
        norm_num [orderedMini, fullMini, Mat.mk', Mat.colD, dataOne, kDot,
          Finset.sum_range_succ, Finset.sum_range_zero]
      simp only [Finset.sum_range_succ, Finset.sum_range_zero, zero_add, hM]
      nlinarith [mul_self_nonneg (x 0)])
    (by
      intro t ht
      norm_num [sqrtFix])
    (apply_ordered_eq kDot svdOne sqrtFix dataOne 1 (by decide) (by decide))
    0 (by decide) 0 (by decide)

end Nystroem
